import Mathlib

/-!
# State history log (eosio/state_history/log.hpp)

A shallow embedding of the entry magic, the entry header, the log data view
and the block range query of the state history log, with the properties of
the specification proved over it.

Machine integers are natural numbers; a `uint32_t` value is a natural number
below `2 ^ 32`, a `uint64_t` value one below `2 ^ 64`, and a narrowing
conversion is an explicit `% 2 ^ 32`.
-/

namespace eosio

/-! ## Name literals -/

/-- Modelled from the spec: `name::char_to_symbol` of eosio/chain/name.hpp, a header
that log.hpp uses through the literal `"ship"_n` and that is not part of the
sources at hand. The specification only says that the tag is the encoded text
"ship" held in the high 32 bits of the magic; the encoding taken here is the
base-32 name alphabet: letters a..z map to 6..31, digits 1..5 to 1..5, and
every other character to 0. -/
def char_to_symbol (c : Char) : Nat :=
  if 'a'.toNat ≤ c.toNat ∧ c.toNat ≤ 'z'.toNat then (c.toNat - 'a'.toNat) + 6
  else if '1'.toNat ≤ c.toNat ∧ c.toNat ≤ '5'.toNat then (c.toNat - '1'.toNat) + 1
  else 0

/-- Modelled from the spec: the loop of `name::string_to_uint64_t` (eosio/chain/name.hpp,
not part of the sources at hand): character number `i` (from 0, at most twelve of
them) contributes its 5-bit symbol shifted left by `64 - 5 * (i + 1)`. -/
def string_to_uint64_t_loop : List Char → Nat → Nat → Nat
  | [], _, n => n
  | c :: cs, i, n =>
    if i < 12 then
      string_to_uint64_t_loop cs (i + 1) (n ||| (((char_to_symbol c) &&& 0x1f) <<< (64 - 5 * (i + 1))))
    else n

/-- Modelled from the spec: `name::string_to_uint64_t` (eosio/chain/name.hpp, not part
of the sources at hand): the twelve leading characters fill the high 60 bits,
a thirteenth character fills the low 4 bits. -/
def string_to_uint64_t (str : String) : Nat :=
  let n := string_to_uint64_t_loop str.toList 0 0
  match str.toList.drop 12 with
  | c :: _ => n ||| ((char_to_symbol c) &&& 0x0f)
  | [] => n

/-- Modelled from the spec: the value of `"ship"_n.to_uint64_t()`, the tag of every
entry magic (the name literal operator is declared in eosio/chain/name.hpp, which
is not part of the sources at hand). -/
def ship_n : Nat := string_to_uint64_t "ship"

/-! ## Entry magic -/

/-- The magic of a log of the given version: `"ship"_n.to_uint64_t() | version`,
where `version` is a `uint32_t` widened to 64 bits. -/
def ship_magic (version : Nat) : Nat := ship_n ||| version

/-- The tag test: `(magic & 0xffffffff00000000) == "ship"_n.to_uint64_t()`. -/
def is_ship (magic : Nat) : Bool := (magic &&& 0xffffffff00000000) == ship_n

/-- The version of a magic: the `uint64_t` narrowed to `uint32_t`. -/
def get_ship_version (magic : Nat) : Nat := magic % 2 ^ 32

/-- The version test: `get_ship_version(magic) <= 1`. -/
def is_ship_supported_version (magic : Nat) : Bool := decide (get_ship_version magic ≤ 1)

/-- The version written by this code. -/
def ship_current_version : Nat := 1

/-! ## Bytes and raw reads -/

/-- One `char` of a mapped file or of a serialisation buffer. -/
abbrev Byte := Fin 256

/-- The unsigned integer held by a run of bytes in little-endian order. -/
def le_value : List Byte → Nat
  | [] => 0
  | b :: bs => b.val + 256 * le_value bs

/-- The `count` low bytes of `n`, least significant first. -/
def le_bytes (n : Nat) : Nat → List Byte
  | 0 => []
  | count + 1 => ⟨n % 256, Nat.mod_lt n (by decide)⟩ :: le_bytes (n / 256) count

/-- The `n` bytes of `buf` from offset `off` on; `none` when they are not all inside
the buffer (the C++ read would leave the mapped region). -/
def read_bytes (buf : List Byte) (off n : Nat) : Option (List Byte) :=
  if off + n ≤ buf.length then some ((buf.drop off).take n) else none

/-- Modelled from the spec: `chain::read_buffer<uint64_t>` (eosio/chain/log_data_base.hpp,
not part of the sources at hand): the 8 bytes at the pointer copied into a
`uint64_t`; the specification fixes the byte order of magic and payload size as
little-endian. -/
def read_buffer_uint64 (buf : List Byte) (off : Nat) : Option Nat :=
  (read_bytes buf off 8).map le_value

/-- Modelled from the spec: `chain::read_buffer<uint32_t>` (eosio/chain/log_data_base.hpp,
not part of the sources at hand): the 4 bytes at the pointer copied into a
`uint32_t` of the little-endian host. -/
def read_buffer_uint32 (buf : List Byte) (off : Nat) : Option Nat :=
  (read_bytes buf off 4).map le_value

/-- Modelled from the spec: `chain::read_buffer<chain::block_id_type>`
(eosio/chain/log_data_base.hpp, not part of the sources at hand): the 32 raw bytes
of a block id. -/
def read_buffer_block_id (buf : List Byte) (off : Nat) : Option (List Byte) :=
  read_bytes buf off 32

/-- Modelled from the spec: `fc::endian_reverse_u32` (fc/bitutil.hpp, not part of the
sources at hand): the four bytes of a 32-bit word in reverse order; the
specification asks for the block number to be read big-endian. -/
def endian_reverse_u32 (x : Nat) : Nat :=
  ((x >>> 0x18) &&& 0xFF) |||
  (((x >>> 0x10) &&& 0xFF) <<< 0x08) |||
  (((x >>> 0x08) &&& 0xFF) <<< 0x10) |||
  ((x &&& 0xFF) <<< 0x18)

/-! ## Entry header -/

/-- The fixed header of an entry, with the default member initialisers of the
C++ struct: the magic of the current version, a zero block id, no payload. -/
structure state_history_log_header where
  magic : Nat := ship_magic ship_current_version
  block_id : List Byte := List.replicate 32 0
  payload_size : Nat := 0
  deriving DecidableEq

/-- Size and alignment of one member of a C++ struct. -/
structure member_layout where
  size : Nat
  align : Nat
  deriving DecidableEq

/-- Modelled from the spec: the size and alignment of `chain::block_id_type`, a type
declared in eosio/chain/types.hpp, not part of the sources at hand: a 32-byte
digest held as four 64-bit words. -/
def block_id_type_layout : member_layout := ⟨32, 8⟩

/-- The members of `state_history_log_header` in declaration order, which is also
the order of `FC_REFLECT`: `uint64_t magic`, `chain::block_id_type block_id`,
`uint64_t payload_size`. -/
def state_history_log_header_members : List member_layout :=
  [⟨8, 8⟩, block_id_type_layout, ⟨8, 8⟩]

/-- The sum of the member sizes: `sizeof(magic) + sizeof(block_id) + sizeof(payload_size)`. -/
def state_history_log_header_serial_size : Nat :=
  (state_history_log_header_members.map member_layout.size).sum

/-- Offsets of consecutive members in a serialisation that packs them back to back,
starting at `off`. -/
def serial_offsets : List member_layout → Nat → List Nat
  | [], _ => []
  | m :: ms, off => off :: serial_offsets ms (off + m.size)

/-- The smallest multiple of `a` that is at least `off`. -/
def align_up (off a : Nat) : Nat := (off + a - 1) / a * a

/-- Offsets of consecutive members of a C++ struct: each member starts at the next
multiple of its alignment. -/
def struct_offsets : List member_layout → Nat → List Nat
  | [], _ => []
  | m :: ms, off => align_up off m.align :: struct_offsets ms (align_up off m.align + m.size)

/-- The end of the last member of a C++ struct laid out from `off`. -/
def struct_end : List member_layout → Nat → Nat
  | [], off => off
  | m :: ms, off => struct_end ms (align_up off m.align + m.size)

/-- The `sizeof` of a C++ struct: the end of its last member rounded up to the
largest member alignment. -/
def struct_sizeof (ms : List member_layout) : Nat :=
  align_up (struct_end ms 0) ((ms.map member_layout.align).foldl max 1)

/-- The value of `sizeof(state_history_log_header)`. -/
def sizeof_state_history_log_header : Nat := struct_sizeof state_history_log_header_members

/-- The value of `offsetof(state_history_log_header, block_id)`. -/
def offsetof_block_id : Nat := (struct_offsets state_history_log_header_members 0).getD 1 0

/-! ## Header codec -/

/-- The error kinds of the log. -/
inductive log_error where
  | CorruptLog
  | UnsupportedVersion
  | OutOfRange
  | ForkMismatch
  | IoError
  | LengthChanged
  deriving DecidableEq

/-- Modelled from the spec: `state_history_log::write_header`, declared in log.hpp with
its body outside the sources at hand. The header is encoded in the reflected member
order: magic as 8 little-endian bytes, the raw block id, payload size as 8
little-endian bytes. The result is the byte run handed to the log file. -/
def write_header (header : state_history_log_header) : List Byte :=
  le_bytes header.magic 8 ++ header.block_id ++ le_bytes header.payload_size 8

/-- Modelled from the spec: `state_history_log::read_header`, declared in log.hpp with
its body outside the sources at hand. Decoding takes the serialised header apart
in the reflected member order; it fails with `CorruptLog` when the bytes are fewer than
a header or the high 32 bits of the magic are not the tag, and with
`UnsupportedVersion` when the version assertion is requested and the version
is above 1. -/
def read_header (bytes : List Byte) (assert_version : Bool) :
    Except log_error state_history_log_header :=
  if bytes.length < state_history_log_header_serial_size then .error .CorruptLog
  else
    let magic := le_value (bytes.take 8)
    let block_id := (bytes.drop 8).take 32
    let payload_size := le_value ((bytes.drop 40).take 8)
    if !is_ship magic then .error .CorruptLog
    else if assert_version && !is_ship_supported_version magic then .error .UnsupportedVersion
    else .ok { magic := magic, block_id := block_id, payload_size := payload_size }

/-! ## Log data view -/

/-- Modelled from the spec: `fc::datastream<const char*>` (fc/io/datastream.hpp, not part
of the sources at hand): a cursor over a byte window, given by the offsets of its
first byte, of its read position and of its end within the mapped file. -/
structure datastream where
  _start : Nat
  _pos : Nat
  _end : Nat
  deriving DecidableEq

/-- Modelled from the spec: the constructor `datastream(start, s)`: a window of `s`
bytes from `start`, positioned at its first byte. -/
def datastream.create (start s : Nat) : datastream :=
  { _start := start, _pos := start, _end := start + s }

/-- The number of bytes a stream still delivers. -/
def datastream.remaining (ds : datastream) : Nat := ds._end - ds._pos

/-- The bytes of `buf` a stream delivers when read to its end. -/
def datastream.contents (ds : datastream) (buf : List Byte) : List Byte :=
  (buf.drop ds._pos).take ds.remaining

/-- The view of one log file: the file name and the mapped bytes (`file` of the
base class `chain::log_data_base`). -/
structure state_history_log_data where
  filename : String := ""
  file : List Byte := []
  deriving DecidableEq

namespace state_history_log_data

/-- The version of the entry at offset 0: the low 32 bits of its magic. -/
def version (d : state_history_log_data) : Option Nat :=
  (read_buffer_uint64 d.file 0).map get_ship_version

/-- The block number of the entry at `position`: the first four bytes of its block
id, read as a 32-bit word and byte-reversed. -/
def block_num_at (d : state_history_log_data) (position : Nat) : Option Nat :=
  (read_buffer_uint32 d.file (position + offsetof_block_id)).map endian_reverse_u32

/-- The source returns `block_num_at(0)`. -/
def first_block_num (d : state_history_log_data) : Option Nat := d.block_num_at 0

/-- The source returns `0`. -/
def first_block_position (_d : state_history_log_data) : Nat := 0

/-- The full block id of the entry at `position`. -/
def block_id_at (d : state_history_log_data) (position : Nat) : Option (List Byte) :=
  read_buffer_block_id d.file (position + offsetof_block_id)

/-- Modelled from the spec: `state_history_log_data::payload_size_at`, declared in
log.hpp with its body outside the sources at hand. The payload size of the entry at
`pos` is the 8-byte little-endian field that follows magic and block id in its
header. -/
def payload_size_at (d : state_history_log_data) (pos : Nat) : Option Nat :=
  read_buffer_uint64 d.file (pos + 8 + 32)

/-- A read-only stream over the payload of the entry at `pos`, with the version of
the entry. -/
def ro_stream_at (d : state_history_log_data) (pos : Nat) : Option (datastream × Nat) := do
  let ver := get_ship_version (← read_buffer_uint64 d.file pos)
  let size ← d.payload_size_at pos
  pure (datastream.create (pos + sizeof_state_history_log_header) size, ver)

end state_history_log_data

/-- The precondition of the positional accessors, after the entry layout of the
specification: `pos` is the start of an entry of the file, that is the header
lies in the file, its magic is a ship magic of a supported version, and the
payload and the trailing position word lie in the file. -/
def valid_entry_at (d : state_history_log_data) (pos : Nat) : Bool :=
  match read_buffer_uint64 d.file pos, read_buffer_uint64 d.file (pos + 40) with
  | some magic, some size =>
    is_ship magic && is_ship_supported_version magic &&
      decide (pos + state_history_log_header_serial_size + size + 8 ≤ d.file.length)
  | _, _ => false

/-- A log file of one entry, used as a test vector: a header with the default magic,
a block id of 32 bytes 09 and payload size 3, the payload aa bb cc, and the
trailing position word 0. -/
def sample_log : state_history_log_data :=
  { file := write_header { block_id := List.replicate 32 9, payload_size := 3 } ++
      [0xaa, 0xbb, 0xcc] ++ le_bytes 0 8 }

/-! ## Catalog and log -/

/-- Modelled from the spec: `chain::log_catalog` (eosio/chain/log_catalog.hpp, not part
of the sources at hand): the ordered retained segments, each with the inclusive
range of block numbers it covers. -/
structure log_catalog where
  collection : List (Nat × Nat) := []
  deriving DecidableEq

/-- Modelled from the spec: `log_catalog::first_block_num`: the smallest block covered,
or 0 when the catalog is empty. -/
def log_catalog.first_block_num (c : log_catalog) : Nat :=
  match c.collection with
  | [] => 0
  | seg :: _ => seg.1

/-- The data members of `state_history_log` that the block range query can see
(the writer thread, the executor, the mutex and the file streams are left out). -/
structure state_history_log where
  name : String := ""
  version : Nat := ship_current_version
  stride : Nat
  cached : List (Nat × List Byte) := []
  num_buffered_entries : Nat := 2
  last_block_id : List Byte := List.replicate 32 0
  _begin_block : Nat := 0
  _end_block : Nat := 0
  catalog : log_catalog := {}
  deriving DecidableEq

/-- The range of blocks the log holds: the catalog's first block when it has one,
else the first block of the active segment, up to `_end_block`. The result is
paired with the state the call leaves behind. -/
def state_history_log.begin_end_block_nums (s : state_history_log) :
    (Nat × Nat) × state_history_log :=
  let result := s.catalog.first_block_num
  ((if result != 0 then result else s._begin_block, s._end_block), s)

/-! ## Writable streams -/

/-- Modelled from the spec: `fc::datastream<char*>::write` (fc/io/datastream.hpp, not part
of the sources at hand): when the bytes fit between the position and the end of
the window they are copied to the position, which advances past them; otherwise
the write is refused. The result is the advanced stream and the file after the
copy. -/
def datastream.write (ds : datastream) (buf : List Byte) (data : List Byte) :
    Option (datastream × List Byte) :=
  if data.length ≤ ds.remaining then
    some ({ ds with _pos := ds._pos + data.length },
      buf.take ds._pos ++ data ++ buf.drop (ds._pos + data.length))
  else none

/-- A read-write stream over the payload of the entry at `pos`, with the version of
the entry; `file.data()` and `file.const_data()` are the same base address of the
mapping, so offsets into the file are the same for both. -/
def state_history_log_data.rw_stream_at (d : state_history_log_data) (pos : Nat) :
    Option (datastream × Nat) := do
  let ver := get_ship_version (← read_buffer_uint64 d.file pos)
  let size ← d.payload_size_at pos
  pure (datastream.create (pos + sizeof_state_history_log_header) size, ver)

/-! ## Block number of a block id -/

/-- The unsigned integer held by a run of bytes in big-endian order. -/
def be_value (bs : List Byte) : Nat := bs.foldl (fun acc b => acc * 256 + b.val) 0

/-- The block number a block id encodes, in the words of the specification: the
first four bytes of the 32-byte id read as a big-endian integer. -/
def block_num_of_id (id : List Byte) : Nat := be_value (id.take 4)

/-! ## Configuration -/

/-- The largest `uint32_t`, the macro `UINT32_MAX` of stdint.h. -/
def UINT32_MAX : Nat := 2 ^ 32 - 1

/-- The configuration of a log with its default member initialisers; a path is
its text and the logger pointer is `none` when null. -/
structure state_history_config where
  log_dir : String := ""
  retained_dir : String := ""
  archive_dir : String := ""
  stride : Nat := UINT32_MAX
  max_retained_files : Nat := 10
  logger : Option Nat := none
  deriving DecidableEq

/-- Modelled from the spec: `log_catalog::last_block_num` (eosio/chain/log_catalog.hpp, not
part of the sources at hand): the largest block covered, or 0 when the catalog is
empty. -/
def log_catalog.last_block_num (c : log_catalog) : Nat :=
  match c.collection.getLast? with
  | none => 0
  | some seg => seg.2

/-! ## Trace caches -/

/-- Modelled from the spec: `chain::transaction_trace` (eosio/chain/trace.hpp, not part of
the sources at hand), of which the log reads the block number; the transaction
id stands for the rest of the trace. -/
structure transaction_trace where
  id : Nat
  block_num : Nat
  deriving DecidableEq

/-- Modelled from the spec: `chain::packed_transaction` (not part of the sources at hand),
kept as its packed bytes; the pointer to it may be null, which is `none`. -/
structure packed_transaction where
  packed : List Byte
  deriving DecidableEq

/-- Modelled from the spec: `state_history::transaction_trace_cache`
(eosio/state_history/transaction_trace_cache.hpp, not part of the sources at hand): a
growable collection of pairs of a trace and an optional packed transaction. -/
structure transaction_trace_cache where
  traces : List (transaction_trace × Option packed_transaction) := []
  deriving DecidableEq

/-- Modelled from the spec: `transaction_trace_cache::add_transaction`: the pair joins
the collection. -/
def transaction_trace_cache.add_transaction (c : transaction_trace_cache)
    (trace : transaction_trace) (transaction : Option packed_transaction) :
    transaction_trace_cache :=
  { traces := c.traces ++ [(trace, transaction)] }

/-- Modelled from the spec: `transaction_trace_cache::clear`: the collection is emptied. -/
def transaction_trace_cache.clear (_c : transaction_trace_cache) : transaction_trace_cache :=
  { traces := [] }

/-- Lookup in a `std::map<uint32_t, V>`, held as the list of its key-value pairs
in ascending key order. -/
def map_find {V : Type} : List (Nat × V) → Nat → Option V
  | [], _ => none
  | (k0, v0) :: rest, k => if k0 = k then some v0 else map_find rest k

/-- Storing `v` under key `k` in a `std::map<uint32_t, V>`: a new pair is put at its
place in the key order, an existing pair has its value replaced. -/
def map_insert_or_assign {V : Type} : List (Nat × V) → Nat → V → List (Nat × V)
  | [], k, v => [(k, v)]
  | (k0, v0) :: rest, k, v =>
    if k < k0 then (k, v) :: (k0, v0) :: rest
    else if k = k0 then (k, v) :: rest
    else (k0, v0) :: map_insert_or_assign rest k v

/-- The C++ expression `m[k].f(...)` on a `std::map`: `operator[]` value-initialises
the element under `k` when there is none, and the member function then changes
the element in place. -/
def map_subscript_apply {V : Type} (m : List (Nat × V)) (k : Nat) (dflt : V) (f : V → V) :
    List (Nat × V) :=
  map_insert_or_assign m k (f ((map_find m k).getD dflt))

/-- The keys of a `std::map`: the block numbers that have a bucket. -/
def map_keys {V : Type} (m : List (Nat × V)) : List Nat := m.map Prod.fst

/-- Modelled from the spec: `state_history::compression_type`
(eosio/state_history/transaction_trace_cache.hpp or a header it pulls in, not part of
the sources at hand): the codec of the payload. -/
inductive compression_type where
  | none
  | zlib
  deriving DecidableEq

/-- The traces log: the base log and the members the class adds, with their
default member initialisers. -/
structure state_history_traces_log where
  base : state_history_log
  trace_caches : List (Nat × transaction_trace_cache) := []
  trace_debug_mode : Bool := false
  compression : compression_type := compression_type.zlib
  deriving DecidableEq

namespace state_history_traces_log

/-- The source runs `trace_caches[trace->block_num].add_transaction(trace, transaction)`. -/
def add_transaction (s : state_history_traces_log) (trace : transaction_trace)
    (transaction : Option packed_transaction) : state_history_traces_log :=
  { s with trace_caches :=
      (map_subscript_apply s.trace_caches trace.block_num ({} : transaction_trace_cache)
        (fun c => c.add_transaction trace transaction)) }

/-- The source runs `trace_caches[block_num].clear()`. -/
def block_start (s : state_history_traces_log) (block_num : Nat) : state_history_traces_log :=
  { s with trace_caches :=
      (map_subscript_apply s.trace_caches block_num ({} : transaction_trace_cache)
        (fun c => c.clear)) }

end state_history_traces_log

/-- A traces log used as a test vector: block 4 holds one trace, block 5 holds another. -/
def sample_traces_log : state_history_traces_log :=
  { base := { stride := UINT32_MAX },
    trace_caches := [(4, { traces := [(⟨1, 4⟩, none)] }), (5, { traces := [(⟨2, 5⟩, none)] })] }

/-- One call of the two operations that touch `trace_caches` before a block is stored. -/
inductive trace_cache_op where
  | block_start (block_num : Nat)
  | add_transaction (trace : transaction_trace) (transaction : Option packed_transaction)
  deriving DecidableEq

/-- The state after one operation. -/
def trace_cache_op.apply (s : state_history_traces_log) : trace_cache_op → state_history_traces_log
  | .block_start b => s.block_start b
  | .add_transaction trace transaction => s.add_transaction trace transaction

/-- The state after a sequence of operations, first to last. -/
def run_trace_cache_ops (s : state_history_traces_log) (ops : List trace_cache_op) :
    state_history_traces_log :=
  ops.foldl trace_cache_op.apply s

/-! ## Helper lemmas on the magic -/

theorem ship_n_eq : ship_n = 2 ^ 32 * 0xc35d5000 := by decide

theorem land_high_mask (m : Nat) :
    m &&& 0xffffffff00000000 = 2 ^ 32 * (m / 2 ^ 32 % 2 ^ 32) := by
  have hmask : (0xffffffff00000000 : Nat) = 2 ^ 32 * (2 ^ 32 - 1) := by norm_num
  apply Nat.eq_of_testBit_eq
  intro i
  rw [hmask, Nat.testBit_and, Nat.testBit_mul_pow_two, Nat.testBit_mul_pow_two,
    Nat.testBit_two_pow_sub_one, Nat.testBit_mod_two_pow, ← Nat.shiftRight_eq_div_pow,
    Nat.testBit_shiftRight]
  by_cases h : i ≥ 32
  · have e : 32 + (i - 32) = i := by omega
    simp [h, e, Bool.and_comm]
  · simp [h]

theorem ship_magic_eq_add (v : Nat) (hv : v < 2 ^ 32) : ship_magic v = ship_n + v := by
  unfold ship_magic
  rw [ship_n_eq]
  exact (Nat.mul_add_lt_is_or hv _).symm

theorem is_ship_iff (m : Nat) : is_ship m = true ↔ m / 2 ^ 32 % 2 ^ 32 = ship_n / 2 ^ 32 := by
  unfold is_ship
  rw [land_high_mask, ship_n_eq]
  simp only [beq_iff_eq]
  omega

theorem get_ship_version_ship_magic (v : Nat) (hv : v < 2 ^ 32) :
    get_ship_version (ship_magic v) = v := by
  rw [ship_magic_eq_add v hv, ship_n_eq]
  unfold get_ship_version
  omega

theorem is_ship_ship_magic (v : Nat) (hv : v < 2 ^ 32) : is_ship (ship_magic v) = true := by
  rw [is_ship_iff, ship_magic_eq_add v hv, ship_n_eq]
  omega

/-! ## Helper lemmas on bytes -/

theorem read_bytes_four (buf : List Byte) (off : Nat) (h : off + 4 ≤ buf.length) :
    read_bytes buf off 4 = some [buf[off], buf[off + 1], buf[off + 2], buf[off + 3]] := by
  unfold read_bytes
  rw [if_pos h]
  rw [List.drop_eq_getElem_cons (by omega : off < buf.length),
    List.drop_eq_getElem_cons (by omega : off + 1 < buf.length),
    List.drop_eq_getElem_cons (by omega : off + 1 + 1 < buf.length),
    List.drop_eq_getElem_cons (by omega : off + 1 + 1 + 1 < buf.length)]
  rfl

theorem read_header_of_length (bytes : List Byte) (assert_version : Bool)
    (h : state_history_log_header_serial_size ≤ bytes.length) :
    read_header bytes assert_version =
      if !is_ship (le_value (bytes.take 8)) then .error .CorruptLog
      else if assert_version && !is_ship_supported_version (le_value (bytes.take 8)) then
        .error .UnsupportedVersion
      else .ok { magic := le_value (bytes.take 8), block_id := (bytes.drop 8).take 32,
                 payload_size := le_value ((bytes.drop 40).take 8) } := by
  unfold read_header
  rw [if_neg (by omega)]

theorem endian_reverse_u32_bytes (a b c d : Nat) (ha : a < 256) (hb : b < 256) (hc : c < 256)
    (hd : d < 256) :
    endian_reverse_u32 (a + 256 * (b + 256 * (c + 256 * (d + 0)))) =
      a * 2 ^ 24 + b * 2 ^ 16 + c * 2 ^ 8 + d := by
  unfold endian_reverse_u32
  have hff : (0xFF : Nat) = 2 ^ 8 - 1 := by norm_num
  simp only [hff, Nat.and_pow_two_sub_one_eq_mod, Nat.shiftRight_eq_div_pow, Nat.shiftLeft_eq]
  have e1 : (a + 256 * (b + 256 * (c + 256 * (d + 0)))) / 2 ^ 0x18 % 2 ^ 8 = d := by omega
  have e2 : (a + 256 * (b + 256 * (c + 256 * (d + 0)))) / 2 ^ 0x10 % 2 ^ 8 = c := by omega
  have e3 : (a + 256 * (b + 256 * (c + 256 * (d + 0)))) / 2 ^ 0x08 % 2 ^ 8 = b := by omega
  have e4 : (a + 256 * (b + 256 * (c + 256 * (d + 0)))) % 2 ^ 8 = a := by omega
  rw [e1, e2, e3, e4]
  have o1 : d ||| c * 2 ^ 0x08 = 2 ^ 8 * c + d := by
    rw [Nat.or_comm, Nat.mul_comm c]
    exact (Nat.mul_add_lt_is_or (by omega) c).symm
  have o2 : (2 ^ 8 * c + d) ||| b * 2 ^ 0x10 = 2 ^ 16 * b + (2 ^ 8 * c + d) := by
    rw [Nat.or_comm, Nat.mul_comm b]
    exact (Nat.mul_add_lt_is_or (by omega) b).symm
  have o3 : (2 ^ 16 * b + (2 ^ 8 * c + d)) ||| a * 2 ^ 0x18 =
      2 ^ 24 * a + (2 ^ 16 * b + (2 ^ 8 * c + d)) := by
    rw [Nat.or_comm, Nat.mul_comm a]
    exact (Nat.mul_add_lt_is_or (by omega) a).symm
  rw [o1, o2, o3]
  omega

theorem le_bytes_length (n count : Nat) : (le_bytes n count).length = count := by
  induction count generalizing n with
  | zero => rfl
  | succ k ih => simp [le_bytes, ih]

theorem le_value_le_bytes (n count : Nat) : le_value (le_bytes n count) = n % 256 ^ count := by
  induction count generalizing n with
  | zero => simp [le_bytes, le_value, Nat.mod_one]
  | succ k ih =>
    simp only [le_bytes, le_value, ih]
    rw [Nat.pow_succ, Nat.mul_comm (256 ^ k) 256, Nat.mod_mul]

theorem write_header_length (h : state_history_log_header) (hid : h.block_id.length = 32) :
    (write_header h).length = 48 := by
  simp [write_header, le_bytes_length, hid]

theorem write_header_magic (h : state_history_log_header) :
    (write_header h).take 8 = le_bytes h.magic 8 := by
  unfold write_header
  rw [List.append_assoc]
  exact List.take_left' (le_bytes_length _ _)

theorem write_header_block_id (h : state_history_log_header) (hid : h.block_id.length = 32) :
    ((write_header h).drop 8).take 32 = h.block_id := by
  unfold write_header
  rw [List.append_assoc, List.drop_left' (le_bytes_length _ _)]
  exact List.take_left' hid

theorem write_header_payload_size (h : state_history_log_header)
    (hid : h.block_id.length = 32) :
    ((write_header h).drop 40).take 8 = le_bytes h.payload_size 8 := by
  unfold write_header
  rw [List.drop_left' (by simp [le_bytes_length, hid])]
  exact List.take_of_length_le (by simp [le_bytes_length])

theorem read_buffer_uint64_of_le (buf : List Byte) (off : Nat) (h : off + 8 ≤ buf.length) :
    read_buffer_uint64 buf off = some (le_value ((buf.drop off).take 8)) := by
  unfold read_buffer_uint64 read_bytes
  rw [if_pos h]
  rfl

theorem read_buffer_uint64_bound (buf : List Byte) (off v : Nat)
    (h : read_buffer_uint64 buf off = some v) : off + 8 ≤ buf.length := by
  unfold read_buffer_uint64 read_bytes at h
  by_cases hle : off + 8 ≤ buf.length
  · exact hle
  · rw [if_neg hle] at h
    exact Option.noConfusion h

theorem ro_stream_at_eq (d : state_history_log_data) (pos magic size : Nat)
    (hm : read_buffer_uint64 d.file pos = some magic)
    (hs : d.payload_size_at pos = some size) :
    d.ro_stream_at pos =
      some (datastream.create (pos + sizeof_state_history_log_header) size,
        get_ship_version magic) := by
  unfold state_history_log_data.ro_stream_at
  rw [hm, hs]
  rfl

/-! ## Helper lemmas on maps -/

theorem map_find_insert_same {V : Type} (m : List (Nat × V)) (k : Nat) (v : V) :
    map_find (map_insert_or_assign m k v) k = some v := by
  induction m with
  | nil => simp [map_insert_or_assign, map_find]
  | cons p rest ih =>
    obtain ⟨k0, v0⟩ := p
    unfold map_insert_or_assign
    by_cases h1 : k < k0
    · simp [h1, map_find]
    · by_cases h2 : k = k0
      · simp [h2, map_find]
      · have h3 : k0 ≠ k := fun h => h2 h.symm
        simp [h1, h2, h3, map_find, ih]

theorem map_find_insert_other {V : Type} (m : List (Nat × V)) (k k1 : Nat) (v : V)
    (hne : k1 ≠ k) : map_find (map_insert_or_assign m k v) k1 = map_find m k1 := by
  have hne2 : k ≠ k1 := fun h => hne h.symm
  induction m with
  | nil => simp [map_insert_or_assign, map_find, hne2]
  | cons p rest ih =>
    obtain ⟨k0, v0⟩ := p
    unfold map_insert_or_assign
    by_cases h1 : k < k0
    · simp [h1, map_find, hne2]
    · by_cases h2 : k = k0
      · subst h2
        simp [map_find, hne2]
      · simp [h1, h2, map_find, ih]

theorem map_insert_insert {V : Type} (m : List (Nat × V)) (k : Nat) (v v1 : V) :
    map_insert_or_assign (map_insert_or_assign m k v) k v1 = map_insert_or_assign m k v1 := by
  induction m with
  | nil => simp [map_insert_or_assign]
  | cons p rest ih =>
    obtain ⟨k0, v0⟩ := p
    by_cases h1 : k < k0
    · simp [map_insert_or_assign, h1]
    · by_cases h2 : k = k0
      · subst h2
        simp [map_insert_or_assign]
      · simp [map_insert_or_assign, h1, h2, ih]

theorem mem_map_keys_iff {V : Type} (m : List (Nat × V)) (k : Nat) :
    k ∈ map_keys m ↔ (map_find m k).isSome = true := by
  induction m with
  | nil => simp [map_keys, map_find]
  | cons p rest ih =>
    obtain ⟨k0, v0⟩ := p
    by_cases h : k0 = k
    · simp [map_keys, map_find, h]
    · have h2 : ¬ k = k0 := fun e => h e.symm
      have ih2 : k ∈ List.map Prod.fst rest ↔ (map_find rest k).isSome = true := ih
      simp only [map_keys, map_find, h, if_false, List.map_cons, List.mem_cons, h2, false_or]
      exact ih2

theorem map_keys_subscript_apply {V : Type} (m : List (Nat × V)) (k k1 : Nat) (dflt : V)
    (f : V → V) (h : k1 ∈ map_keys m) : k1 ∈ map_keys (map_subscript_apply m k dflt f) := by
  rw [mem_map_keys_iff] at h ⊢
  unfold map_subscript_apply
  by_cases hk : k1 = k
  · subst hk
    rw [map_find_insert_same]
    rfl
  · rw [map_find_insert_other _ _ _ _ hk]
    exact h

theorem map_keys_apply (s : state_history_traces_log) (op : trace_cache_op) (k : Nat)
    (h : k ∈ map_keys s.trace_caches) : k ∈ map_keys (op.apply s).trace_caches := by
  cases op with
  | block_start b => exact map_keys_subscript_apply _ _ _ _ _ h
  | add_transaction trace transaction =>
    exact map_keys_subscript_apply s.trace_caches trace.block_num k
      ({} : transaction_trace_cache) (fun c => c.add_transaction trace transaction) h

theorem map_keys_run (ops : List trace_cache_op) (s : state_history_traces_log) (k : Nat)
    (h : k ∈ map_keys s.trace_caches) :
    k ∈ map_keys (run_trace_cache_ops s ops).trace_caches := by
  induction ops generalizing s with
  | nil => exact h
  | cons op rest ih => exact ih (op.apply s) (map_keys_apply s op k h)

/-! ## Helper lemmas on block ids -/

theorem take_four_drop (buf : List Byte) (off : Nat) (h : off + 4 ≤ buf.length) :
    (buf.drop off).take 4 = [buf[off], buf[off + 1], buf[off + 2], buf[off + 3]] := by
  have h4 := read_bytes_four buf off h
  unfold read_bytes at h4
  rw [if_pos h] at h4
  exact Option.some.inj h4

theorem be_value_four (a b c d : Byte) :
    be_value [a, b, c, d] = a.val * 2 ^ 24 + b.val * 2 ^ 16 + c.val * 2 ^ 8 + d.val := by
  simp only [be_value, List.foldl]
  omega

theorem block_id_at_of_le (d : state_history_log_data) (pos : Nat)
    (h : pos + 40 ≤ d.file.length) :
    d.block_id_at pos = some ((d.file.drop (pos + 8)).take 32) := by
  have hoff : offsetof_block_id = 8 := by decide
  unfold state_history_log_data.block_id_at read_buffer_block_id read_bytes
  rw [hoff, if_pos (by omega)]

/-! ## Helper lemmas on streams -/

theorem rw_stream_at_eq (d : state_history_log_data) (pos magic size : Nat)
    (hm : read_buffer_uint64 d.file pos = some magic)
    (hs : d.payload_size_at pos = some size) :
    d.rw_stream_at pos =
      some (datastream.create (pos + sizeof_state_history_log_header) size,
        get_ship_version magic) := by
  unfold state_history_log_data.rw_stream_at
  rw [hm, hs]
  rfl

theorem valid_entry_at_elim (d : state_history_log_data) (pos : Nat)
    (hvalid : valid_entry_at d pos = true) :
    ∃ magic size, read_buffer_uint64 d.file pos = some magic ∧
      d.payload_size_at pos = some size ∧ is_ship magic = true ∧
      is_ship_supported_version magic = true ∧ pos + 48 + size + 8 ≤ d.file.length := by
  have hserial : state_history_log_header_serial_size = 48 := by decide
  unfold valid_entry_at at hvalid
  cases hm : read_buffer_uint64 d.file pos with
  | none => rw [hm] at hvalid; exact Bool.noConfusion hvalid
  | some magic =>
    cases hs : read_buffer_uint64 d.file (pos + 40) with
    | none => rw [hm, hs] at hvalid; exact Bool.noConfusion hvalid
    | some size =>
      rw [hm, hs] at hvalid
      simp only [Bool.and_eq_true, decide_eq_true_eq, hserial] at hvalid
      exact ⟨magic, size, rfl, hs, hvalid.1.1, hvalid.1.2, hvalid.2⟩

theorem datastream_write_frame (ds : datastream) (buf data : List Byte)
    (hfit : data.length ≤ ds.remaining) (hpos : ds._pos ≤ ds._end)
    (hend : ds._end ≤ buf.length) :
    ∃ buf1, ds.write buf data = some ({ ds with _pos := ds._pos + data.length }, buf1) ∧
      buf1.length = buf.length ∧ buf1.take ds._pos = buf.take ds._pos ∧
      buf1.drop ds._end = buf.drop ds._end ∧ (buf1.drop ds._pos).take data.length = data := by
  have hrem : ds.remaining = ds._end - ds._pos := rfl
  have hlen_take : (buf.take ds._pos).length = ds._pos := by
    rw [List.length_take]
    omega
  refine ⟨buf.take ds._pos ++ data ++ buf.drop (ds._pos + data.length), ?_, ?_, ?_, ?_, ?_⟩
  · unfold datastream.write
    rw [if_pos hfit]
  · simp only [List.length_append, List.length_take, List.length_drop]
    omega
  · rw [List.append_assoc]
    exact List.take_left' hlen_take
  · rw [List.drop_append_eq_append_drop, List.drop_eq_nil_of_le, List.nil_append,
      List.drop_drop]
    · congr 1
      simp only [List.length_append, hlen_take]
      omega
    · simp only [List.length_append, hlen_take]
      omega
  · rw [List.append_assoc, List.drop_left' hlen_take]
    exact List.take_left' rfl

theorem datastream_write_refused (ds : datastream) (buf data : List Byte)
    (h : ds.remaining < data.length) : ds.write buf data = none := by
  unfold datastream.write
  rw [if_neg (by omega)]

/-! ## The claims -/

/-- C1: for every 32-bit version `v`, the magic `ship_magic v` is recognised by
`is_ship` and `get_ship_version` gives `v` back; the tag has no bit in the low
32 bits and the magic is a 64-bit value. -/
theorem ship_magic_round_trip (v : Nat) (hv : v < 2 ^ 32) :
    is_ship (ship_magic v) = true ∧ get_ship_version (ship_magic v) = v ∧
      ship_n % 2 ^ 32 = 0 ∧ ship_magic v < 2 ^ 64 := by
  refine ⟨is_ship_ship_magic v hv, get_ship_version_ship_magic v hv, by decide, ?_⟩
  rw [ship_magic_eq_add v hv, ship_n_eq]
  omega

theorem ship_magic_round_trip_witness :
    (7 : Nat) < 2 ^ 32 ∧ (is_ship (ship_magic 7) = true ∧ get_ship_version (ship_magic 7) = 7 ∧
      ship_n % 2 ^ 32 = 0 ∧ ship_magic 7 < 2 ^ 64) :=
  ⟨by decide, ship_magic_round_trip 7 (by decide)⟩

/-- C2: for every 64-bit magic `m`, `is_ship m` holds exactly when the high 32 bits
of `m` are those of the tag; replacing the low 32 bits of `m` never changes the
result; and decoding a header whose magic is `m` reports `CorruptLog` exactly
when the high 32 bits are not the tag, with or without the version assertion. -/
theorem is_ship_iff_high_bits (m : Nat) (hm : m < 2 ^ 64) :
    (is_ship m = true ↔ m / 2 ^ 32 = ship_n / 2 ^ 32) ∧
    (∀ lo : Nat, lo < 2 ^ 32 → is_ship (m / 2 ^ 32 * 2 ^ 32 + lo) = is_ship m) ∧
    (∀ (bytes : List Byte) (assert_version : Bool),
      bytes.length = state_history_log_header_serial_size → le_value (bytes.take 8) = m →
      (read_header bytes assert_version = .error .CorruptLog ↔
        m / 2 ^ 32 ≠ ship_n / 2 ^ 32)) := by
  have h1 : is_ship m = true ↔ m / 2 ^ 32 = ship_n / 2 ^ 32 := by
    rw [is_ship_iff]
    have : m / 2 ^ 32 % 2 ^ 32 = m / 2 ^ 32 := by omega
    rw [this]
  refine ⟨h1, ?_, ?_⟩
  · intro lo hlo
    rw [Bool.eq_iff_iff, is_ship_iff, is_ship_iff]
    have : (m / 2 ^ 32 * 2 ^ 32 + lo) / 2 ^ 32 = m / 2 ^ 32 := by omega
    rw [this]
  · intro bytes av hlen hval
    rw [read_header_of_length bytes av (by omega), hval, ne_eq, ← h1]
    cases hs : is_ship m
    · simp
    · cases av <;> cases is_ship_supported_version m <;> simp

theorem is_ship_iff_high_bits_witness :
    (0xc35d500000000001 : Nat) < 2 ^ 64 ∧
    ((is_ship 0xc35d500000000001 = true ↔ 0xc35d500000000001 / 2 ^ 32 = ship_n / 2 ^ 32) ∧
    (∀ lo : Nat, lo < 2 ^ 32 →
      is_ship (0xc35d500000000001 / 2 ^ 32 * 2 ^ 32 + lo) = is_ship 0xc35d500000000001) ∧
    (∀ (bytes : List Byte) (assert_version : Bool),
      bytes.length = state_history_log_header_serial_size →
      le_value (bytes.take 8) = 0xc35d500000000001 →
      (read_header bytes assert_version = .error .CorruptLog ↔
        0xc35d500000000001 / 2 ^ 32 ≠ ship_n / 2 ^ 32))) :=
  ⟨by decide, is_ship_iff_high_bits 0xc35d500000000001 (by decide)⟩

/-- C3: for every magic `m`, `is_ship_supported_version m` holds exactly when the
version in the low 32 bits of `m` is at most 1, it fails exactly when that version
is above 1, and the magic of the current version, which is 1, is accepted. -/
theorem is_ship_supported_version_iff (m : Nat) :
    (is_ship_supported_version m = true ↔ m % 2 ^ 32 ≤ 1) ∧
    (is_ship_supported_version m = false ↔ 1 < get_ship_version m) ∧
    is_ship_supported_version (ship_magic ship_current_version) = true ∧
    ship_current_version = 1 ∧ get_ship_version (ship_magic ship_current_version) = 1 := by
  refine ⟨?_, ?_, by decide, rfl, by decide⟩
  · simp [is_ship_supported_version, get_ship_version]
  · simp [is_ship_supported_version, get_ship_version]

/-- C4: the serialised header size is 48 = 8 + 32 + 8; in the serialised entry, and just
so in the C++ struct, the magic sits at offset 0, the block id at offset 8 and the
payload size at offset 40. -/
theorem state_history_log_header_serial_size_eq :
    state_history_log_header_serial_size = 48 ∧
    state_history_log_header_serial_size = 8 + 32 + 8 ∧
    serial_offsets state_history_log_header_members 0 = [0, 8, 40] ∧
    struct_offsets state_history_log_header_members 0 = [0, 8, 40] ∧
    offsetof_block_id = 8 := by
  decide

/-- C5: when the twelve bytes from `pos` on lie inside the file, `block_num_at pos`
is the big-endian value of the four bytes at `pos + 8 .. pos + 11`. -/
theorem block_num_at_big_endian (d : state_history_log_data) (pos : Nat)
    (h : pos + 12 ≤ d.file.length) :
    d.block_num_at pos =
      some ((d.file[pos + 8]).val * 2 ^ 24 + (d.file[pos + 9]).val * 2 ^ 16 +
        (d.file[pos + 10]).val * 2 ^ 8 + (d.file[pos + 11]).val) := by
  have hoff : offsetof_block_id = 8 := by decide
  unfold state_history_log_data.block_num_at read_buffer_uint32
  rw [hoff, read_bytes_four d.file (pos + 8) (by omega)]
  simp only [Option.map_some', le_value, Option.some.injEq]
  exact endian_reverse_u32_bytes _ _ _ _ (Fin.isLt _) (Fin.isLt _) (Fin.isLt _) (Fin.isLt _)

theorem block_num_at_big_endian_witness :
    state_history_log_data.block_num_at
        { file := [0, 0, 0, 0, 0, 0, 0, 0, 0x01, 0x02, 0x03, 0x04] } 0 =
      some 0x01020304 := by
  have h := block_num_at_big_endian
    { file := [0, 0, 0, 0, 0, 0, 0, 0, 0x01, 0x02, 0x03, 0x04] } 0 (by decide)
  simpa using h

/-- C6: for every header whose fields fit their C++ types (64-bit magic and payload
size, 32-byte block id) and whose magic is a ship magic of a supported version,
the encoding has 48 bytes and decoding it, with or without the version assertion,
gives the header back. -/
theorem read_header_write_header (h : state_history_log_header) (assert_version : Bool)
    (hmagic : h.magic < 2 ^ 64) (hid : h.block_id.length = 32)
    (hsize : h.payload_size < 2 ^ 64) (hship : is_ship h.magic = true)
    (hver : is_ship_supported_version h.magic = true) :
    (write_header h).length = state_history_log_header_serial_size ∧
    read_header (write_header h) assert_version = .ok h := by
  have hlen := write_header_length h hid
  have hserial : state_history_log_header_serial_size = 48 := by decide
  have hm : le_value (le_bytes h.magic 8) = h.magic := by
    rw [le_value_le_bytes]
    exact Nat.mod_eq_of_lt (by norm_num; omega)
  have hp : le_value (le_bytes h.payload_size 8) = h.payload_size := by
    rw [le_value_le_bytes]
    exact Nat.mod_eq_of_lt (by norm_num; omega)
  refine ⟨by rw [hlen, hserial], ?_⟩
  rw [read_header_of_length _ _ (by rw [hlen, hserial]), write_header_magic,
    write_header_block_id h hid, write_header_payload_size h hid, hm, hp, hship, hver]
  cases assert_version <;> rfl

theorem read_header_write_header_witness :
    read_header (write_header
      { magic := ship_magic 1, block_id := List.replicate 32 7, payload_size := 300 }) true =
      .ok { magic := ship_magic 1, block_id := List.replicate 32 7, payload_size := 300 } :=
  (read_header_write_header
    { magic := ship_magic 1, block_id := List.replicate 32 7, payload_size := 300 } true
    (by decide) (by decide) (by decide) (by decide) (by decide)).2

/-- C7: `begin_end_block_nums` returns the catalog's first block number with
`_end_block` when that number is not 0, and `_begin_block` with `_end_block` when
it is 0, which is the case for an empty catalog; it always returns and leaves the
whole state, so `_begin_block`, `_end_block` and the catalog, as it was. -/
theorem begin_end_block_nums_spec (s : state_history_log) :
    (s.catalog.first_block_num ≠ 0 →
      s.begin_end_block_nums.1 = (s.catalog.first_block_num, s._end_block)) ∧
    (s.catalog.first_block_num = 0 →
      s.begin_end_block_nums.1 = (s._begin_block, s._end_block)) ∧
    (s.catalog.collection = [] → s.begin_end_block_nums.1 = (s._begin_block, s._end_block)) ∧
    s.begin_end_block_nums.2 = s := by
  refine ⟨?_, ?_, ?_, rfl⟩
  · intro h
    simp [state_history_log.begin_end_block_nums, h]
  · intro h
    simp [state_history_log.begin_end_block_nums, h]
  · intro h
    simp [state_history_log.begin_end_block_nums, log_catalog.first_block_num, h]

theorem begin_end_block_nums_spec_witness :
    (state_history_log.begin_end_block_nums
      { stride := 4294967295, _begin_block := 10, _end_block := 13 }).1 = (10, 13) ∧
    (state_history_log.begin_end_block_nums
      { stride := 4, _begin_block := 10, _end_block := 13,
        catalog := { collection := [(2, 5), (6, 9)] } }).1 = (2, 13) ∧
    (state_history_log.begin_end_block_nums
      { stride := 4294967295, _begin_block := 10, _end_block := 13 }).2 =
      { stride := 4294967295, _begin_block := 10, _end_block := 13 } :=
  ⟨(begin_end_block_nums_spec
      { stride := 4294967295, _begin_block := 10, _end_block := 13 }).2.1 rfl,
    (begin_end_block_nums_spec
      { stride := 4, _begin_block := 10, _end_block := 13,
        catalog := { collection := [(2, 5), (6, 9)] } }).1 (by decide),
    (begin_end_block_nums_spec
      { stride := 4294967295, _begin_block := 10, _end_block := 13 }).2.2.2⟩

/-- C8: for every log data view, `first_block_position` is 0 and `first_block_num` is
`block_num_at` of that position; whenever `ro_stream_at` of that position returns,
`version` returns the version it reports; `version` is the low 32 bits of the
little-endian 64-bit magic at offset 0; and when the first header lies in the
file both return. -/
theorem first_entry_accessors (d : state_history_log_data) :
    d.first_block_position = 0 ∧
    d.first_block_num = d.block_num_at d.first_block_position ∧
    (∀ ds v, d.ro_stream_at d.first_block_position = some (ds, v) → d.version = some v) ∧
    d.version = (read_bytes d.file 0 8).map (fun bs => le_value bs % 2 ^ 32) ∧
    (sizeof_state_history_log_header ≤ d.file.length →
      ∃ ds v, d.ro_stream_at d.first_block_position = some (ds, v) ∧ d.version = some v ∧
        v = le_value (d.file.take 8) % 2 ^ 32) := by
  refine ⟨rfl, rfl, ?_, ?_, ?_⟩
  · intro ds v h
    unfold state_history_log_data.ro_stream_at state_history_log_data.first_block_position at h
    unfold state_history_log_data.version
    cases hm : read_buffer_uint64 d.file 0 with
    | none => rw [hm] at h; exact Option.noConfusion h
    | some magic =>
      rw [hm] at h
      cases hs : d.payload_size_at 0 with
      | none => rw [hs] at h; exact Option.noConfusion h
      | some size =>
        rw [hs] at h
        have h2 : (datastream.create (0 + sizeof_state_history_log_header) size,
            get_ship_version magic) = (ds, v) := Option.some.inj h
        rw [← (Prod.mk.inj h2).2]
        rfl
  · unfold state_history_log_data.version read_buffer_uint64
    cases read_bytes d.file 0 8 <;> rfl
  · intro hlen
    have hsz : sizeof_state_history_log_header = 48 := by decide
    rw [hsz] at hlen
    have hm := read_buffer_uint64_of_le d.file 0 (by omega)
    have hs : d.payload_size_at 0 = some (le_value ((d.file.drop (0 + 8 + 32)).take 8)) :=
      read_buffer_uint64_of_le d.file (0 + 8 + 32) (by omega)
    refine ⟨_, _, ro_stream_at_eq d 0 _ _ hm hs, ?_, ?_⟩
    · unfold state_history_log_data.version
      rw [hm]
      rfl
    · rfl

theorem first_entry_accessors_witness :
    sizeof_state_history_log_header ≤ sample_log.file.length ∧
    sample_log.version = some 1 ∧ sample_log.first_block_num = some 0x09090909 ∧
    ∃ ds, sample_log.ro_stream_at sample_log.first_block_position = some (ds, 1) := by
  obtain ⟨_, hnum, hver, _, hret⟩ := first_entry_accessors sample_log
  obtain ⟨ds, v, hro, _, hv⟩ := hret (by decide)
  have hv1 : v = 1 := by
    rw [hv]
    decide
  subst hv1
  refine ⟨by decide, hver ds 1 hro, ?_, ds, hro⟩
  rw [hnum]
  decide

/-- C9: at every valid entry start `pos`, `ro_stream_at pos` returns a stream that
starts at offset `pos + 48`, delivers exactly the `payload_size_at pos` bytes of the
file from that offset on, and comes with the low 32 bits of the little-endian
magic at `pos`; `sizeof(state_history_log_header)` and the serialised header size
are both 48. -/
theorem ro_stream_at_payload_window (d : state_history_log_data) (pos : Nat)
    (hvalid : valid_entry_at d pos = true) :
    ∃ magic P ds, read_buffer_uint64 d.file pos = some magic ∧
      d.payload_size_at pos = some P ∧
      d.ro_stream_at pos = some (ds, magic % 2 ^ 32) ∧
      ds._start = pos + state_history_log_header_serial_size ∧
      ds._pos = pos + state_history_log_header_serial_size ∧
      ds.remaining = P ∧
      ds.contents d.file = (d.file.drop (pos + 48)).take P ∧
      (ds.contents d.file).length = P ∧
      sizeof_state_history_log_header = state_history_log_header_serial_size ∧
      state_history_log_header_serial_size = 48 := by
  have hsz : sizeof_state_history_log_header = 48 := by decide
  have hserial : state_history_log_header_serial_size = 48 := by decide
  unfold valid_entry_at at hvalid
  cases hm : read_buffer_uint64 d.file pos with
  | none => rw [hm] at hvalid; exact Bool.noConfusion hvalid
  | some magic =>
    cases hs : read_buffer_uint64 d.file (pos + 40) with
    | none => rw [hm, hs] at hvalid; exact Bool.noConfusion hvalid
    | some P =>
      rw [hm, hs] at hvalid
      simp only [Bool.and_eq_true, decide_eq_true_eq, hserial] at hvalid
      have hps : d.payload_size_at pos = some P := hs
      refine ⟨magic, P, datastream.create (pos + sizeof_state_history_log_header) P, rfl, hps,
        ro_stream_at_eq d pos magic P hm hps, ?_, ?_, ?_, ?_, ?_, ?_, hserial⟩
      · rw [hsz, hserial]; rfl
      · rw [hsz, hserial]; rfl
      · simp [datastream.create, datastream.remaining]
      · simp [datastream.create, datastream.contents, datastream.remaining, hsz]
      · simp [datastream.create, datastream.contents, datastream.remaining, hsz]
        omega
      · rw [hsz, hserial]

theorem ro_stream_at_payload_window_witness :
    valid_entry_at sample_log 0 = true ∧
    ∃ ds, sample_log.ro_stream_at 0 = some (ds, 1) ∧ ds._start = 48 ∧
      ds.contents sample_log.file = [0xaa, 0xbb, 0xcc] := by
  refine ⟨by decide, ?_⟩
  obtain ⟨magic, P, ds, hm, hp, hro, hstart, _, _, hcontents, _, _, _⟩ :=
    ro_stream_at_payload_window sample_log 0 (by decide)
  have hm1 : read_buffer_uint64 sample_log.file 0 = some (ship_magic 1) := by decide
  have hp3 : sample_log.payload_size_at 0 = some 3 := by decide
  rw [hm1] at hm
  rw [hp3] at hp
  have hmagic : magic = ship_magic 1 := (Option.some.inj hm).symm
  have hP : P = 3 := (Option.some.inj hp).symm
  subst hmagic hP
  refine ⟨ds, hro, ?_, ?_⟩
  · rw [hstart]
    decide
  · rw [hcontents]
    decide

/-- C10: a default-constructed header has the magic `ship_magic ship_current_version`,
which is a ship magic of version 1, a supported version; its block id is 32 zero
bytes and its payload size is 0. -/
theorem default_header_magic :
    ({} : state_history_log_header).magic = ship_magic ship_current_version ∧
    is_ship ({} : state_history_log_header).magic = true ∧
    get_ship_version ({} : state_history_log_header).magic = 1 ∧
    is_ship_supported_version ({} : state_history_log_header).magic = true ∧
    ({} : state_history_log_header).block_id.length = 32 ∧
    ({} : state_history_log_header).block_id.all (fun b => b == 0) = true ∧
    ({} : state_history_log_header).payload_size = 0 := by
  decide

/-- C11: after `block_start b` the bucket of `b` exists and is empty, the bucket of
every other block number is as before, and so is the rest of the log. -/
theorem block_start_bucket (s : state_history_traces_log) (b : Nat) :
    map_find (s.block_start b).trace_caches b = some { traces := [] } ∧
    b ∈ map_keys (s.block_start b).trace_caches ∧
    (∀ k, k ≠ b → map_find (s.block_start b).trace_caches k = map_find s.trace_caches k) ∧
    (s.block_start b).base = s.base ∧
    (s.block_start b).trace_debug_mode = s.trace_debug_mode ∧
    (s.block_start b).compression = s.compression := by
  have hb : map_find (s.block_start b).trace_caches b = some { traces := [] } :=
    map_find_insert_same _ _ _
  refine ⟨hb, ?_, ?_, rfl, rfl, rfl⟩
  · rw [mem_map_keys_iff, hb]
    rfl
  · intro k hk
    exact map_find_insert_other _ _ _ _ hk

theorem block_start_bucket_witness :
    map_find (sample_traces_log.block_start 5).trace_caches 4 =
      some { traces := [(⟨1, 4⟩, none)] } ∧
    map_find (sample_traces_log.block_start 5).trace_caches 5 = some { traces := [] } ∧
    map_find (sample_traces_log.block_start 7).trace_caches 7 = some { traces := [] } :=
  ⟨((block_start_bucket sample_traces_log 5).2.2.1 4 (by decide)).trans (by decide),
   (block_start_bucket sample_traces_log 5).1,
   (block_start_bucket sample_traces_log 7).1⟩

/-- C13: a default-constructed configuration has `max_retained_files` 10, `stride`
2^32 - 1, empty `log_dir`, `retained_dir` and `archive_dir` and a null logger; a
log has `num_buffered_entries` 2 whatever stride it is given. -/
theorem default_config :
    ({} : state_history_config).max_retained_files = 10 ∧
    ({} : state_history_config).stride = 2 ^ 32 - 1 ∧
    ({} : state_history_config).stride = UINT32_MAX ∧
    ({} : state_history_config).log_dir = "" ∧
    ({} : state_history_config).retained_dir = "" ∧
    ({} : state_history_config).archive_dir = "" ∧
    ({} : state_history_config).logger = none ∧
    (∀ stride : Nat, ({ stride := stride } : state_history_log).num_buffered_entries = 2) :=
  ⟨rfl, rfl, rfl, rfl, rfl, rfl, rfl, fun _ => rfl⟩

/-- C14: when the block id of the entry at `pos` lies in the file, `block_id_at pos`
returns a 32-byte id and `block_num_at pos` returns the block number that id
encodes, the big-endian value of its first four bytes. -/
theorem block_num_at_eq_block_num_of_id (d : state_history_log_data) (pos : Nat)
    (h : pos + 40 ≤ d.file.length) :
    ∃ id, d.block_id_at pos = some id ∧ id.length = 32 ∧
      d.block_num_at pos = some (block_num_of_id id) := by
  have hoff : offsetof_block_id = 8 := by decide
  refine ⟨(d.file.drop (pos + 8)).take 32, block_id_at_of_le d pos h, ?_, ?_⟩
  · simp
    omega
  · unfold state_history_log_data.block_num_at read_buffer_uint32 block_num_of_id
    rw [hoff, read_bytes_four d.file (pos + 8) (by omega), List.take_take,
      show min 4 32 = 4 from rfl, take_four_drop d.file (pos + 8) (by omega), be_value_four]
    simp only [Option.map_some', le_value, Option.some.injEq]
    exact endian_reverse_u32_bytes _ _ _ _ (Fin.isLt _) (Fin.isLt _) (Fin.isLt _) (Fin.isLt _)

theorem block_num_at_eq_block_num_of_id_witness :
    sample_log.block_id_at 0 = some (List.replicate 32 9) ∧
    sample_log.block_num_at 0 = some (block_num_of_id (List.replicate 32 9)) := by
  obtain ⟨id, hid, _, hnum⟩ := block_num_at_eq_block_num_of_id sample_log 0 (by decide)
  have hid9 : sample_log.block_id_at 0 = some (List.replicate 32 9) := by decide
  rw [hid9] at hid
  rw [← Option.some.inj hid] at hnum
  exact ⟨hid9, hnum⟩

/-- C15: `rw_stream_at pos` and `ro_stream_at pos` return the same window and the same
version; at a valid entry start the window begins at `pos + 48` and has
`payload_size_at pos` bytes, a write of at most that many bytes through the
writer keeps the file length, leaves every byte before `pos + 48` (the header and
the earlier entries) and every byte from the end of the payload on (the trailing
position word and the later entries) as they were, and puts the data at the start
of the payload; a longer write is refused. -/
theorem rw_stream_at_same_window (d : state_history_log_data) (pos : Nat)
    (hvalid : valid_entry_at d pos = true) :
    d.rw_stream_at pos = d.ro_stream_at pos ∧
    ∃ ds ver P, d.rw_stream_at pos = some (ds, ver) ∧ d.ro_stream_at pos = some (ds, ver) ∧
      d.payload_size_at pos = some P ∧
      ds._start = pos + 48 ∧ ds._pos = pos + 48 ∧ ds.remaining = P ∧
      (∀ data : List Byte, data.length ≤ P →
        ∃ ds1 buf1, ds.write d.file data = some (ds1, buf1) ∧
          ds1._start = ds._start ∧ ds1._end = ds._end ∧ ds1._pos = pos + 48 + data.length ∧
          buf1.length = d.file.length ∧
          buf1.take (pos + 48) = d.file.take (pos + 48) ∧
          buf1.drop (pos + 48 + P) = d.file.drop (pos + 48 + P) ∧
          (buf1.drop (pos + 48)).take data.length = data) ∧
      (∀ data : List Byte, P < data.length → ds.write d.file data = none) := by
  have hsz : sizeof_state_history_log_header = 48 := by decide
  obtain ⟨magic, P, hm, hp, _, _, hbound⟩ := valid_entry_at_elim d pos hvalid
  have hrw := rw_stream_at_eq d pos magic P hm hp
  have hro := ro_stream_at_eq d pos magic P hm hp
  rw [hsz] at hrw hro
  refine ⟨by rw [hrw, hro], datastream.create (pos + 48) P, get_ship_version magic, P,
    hrw, hro, hp, rfl, rfl, ?_, ?_, ?_⟩
  · simp [datastream.create, datastream.remaining]
  · intro data hdata
    have hrem : (datastream.create (pos + 48) P).remaining = P := by
      simp [datastream.create, datastream.remaining]
    obtain ⟨buf1, hw, hlen, htake, hdrop, hdata1⟩ :=
      datastream_write_frame (datastream.create (pos + 48) P) d.file data
        (by rw [hrem]; exact hdata) (Nat.le_add_right _ _)
        (by simp only [datastream.create]; omega)
    exact ⟨_, buf1, hw, rfl, rfl, rfl, hlen, htake, hdrop, hdata1⟩
  · intro data hdata
    apply datastream_write_refused
    simp only [datastream.create, datastream.remaining]
    omega

theorem rw_stream_at_same_window_witness :
    valid_entry_at sample_log 0 = true ∧
    sample_log.rw_stream_at 0 = sample_log.ro_stream_at 0 ∧
    sample_log.rw_stream_at 0 = some (datastream.create 48 3, 1) :=
  ⟨by decide, (rw_stream_at_same_window sample_log 0 (by decide)).1, by decide⟩

/-- C16: `add_transaction trace transaction` gives the bucket of the trace's own block
number the pair, on top of what that bucket held, or of an empty bucket when there
was none; the bucket of every other block number is as before, and so is the
rest of the log. -/
theorem add_transaction_bucket (s : state_history_traces_log) (trace : transaction_trace)
    (transaction : Option packed_transaction) :
    map_find (s.add_transaction trace transaction).trace_caches trace.block_num =
      some (((map_find s.trace_caches trace.block_num).getD {}).add_transaction
        trace transaction) ∧
    (∃ c, map_find (s.add_transaction trace transaction).trace_caches trace.block_num = some c ∧
      (trace, transaction) ∈ c.traces ∧
      c.traces = ((map_find s.trace_caches trace.block_num).getD {}).traces ++
        [(trace, transaction)]) ∧
    (map_find s.trace_caches trace.block_num = none →
      map_find (s.add_transaction trace transaction).trace_caches trace.block_num =
        some { traces := [(trace, transaction)] }) ∧
    (∀ k, k ≠ trace.block_num →
      map_find (s.add_transaction trace transaction).trace_caches k =
        map_find s.trace_caches k) ∧
    (s.add_transaction trace transaction).base = s.base ∧
    (s.add_transaction trace transaction).trace_debug_mode = s.trace_debug_mode ∧
    (s.add_transaction trace transaction).compression = s.compression := by
  have hb : map_find (s.add_transaction trace transaction).trace_caches trace.block_num =
      some (((map_find s.trace_caches trace.block_num).getD {}).add_transaction
        trace transaction) := map_find_insert_same _ _ _
  refine ⟨hb, ⟨_, hb, ?_, rfl⟩, ?_, ?_, rfl, rfl, rfl⟩
  · simp [transaction_trace_cache.add_transaction]
  · intro hnone
    rw [hb, hnone]
    rfl
  · intro k hk
    exact map_find_insert_other _ _ _ _ hk

theorem add_transaction_bucket_witness :
    map_find (sample_traces_log.add_transaction ⟨3, 5⟩ none).trace_caches 4 =
      some { traces := [(⟨1, 4⟩, none)] } ∧
    map_find (sample_traces_log.add_transaction ⟨3, 5⟩ none).trace_caches 5 =
      some { traces := [(⟨2, 5⟩, none), (⟨3, 5⟩, none)] } ∧
    map_find (sample_traces_log.add_transaction ⟨3, 8⟩ none).trace_caches 8 =
      some { traces := [(⟨3, 8⟩, none)] } :=
  ⟨((add_transaction_bucket sample_traces_log ⟨3, 5⟩ none).2.2.2.1 4 (by decide)).trans
      (by decide),
   ((add_transaction_bucket sample_traces_log ⟨3, 5⟩ none).1).trans (by decide),
   (add_transaction_bucket sample_traces_log ⟨3, 8⟩ none).2.2.1 (by decide)⟩

/-- C17: every 64-bit magic `m` that `is_ship` accepts is rebuilt from its version,
`ship_magic (get_ship_version m) = m`, and its version is a 32-bit value; with the
forward round trip this makes `ship_magic` a bijection between the 32-bit
versions and the accepted 64-bit magics, and in particular injective. -/
theorem ship_magic_get_ship_version :
    (∀ m, m < 2 ^ 64 → is_ship m = true →
      ship_magic (get_ship_version m) = m ∧ get_ship_version m < 2 ^ 32) ∧
    (∀ v, v < 2 ^ 32 →
      ship_magic v < 2 ^ 64 ∧ is_ship (ship_magic v) = true ∧
        get_ship_version (ship_magic v) = v) ∧
    (∀ v1 v2, v1 < 2 ^ 32 → v2 < 2 ^ 32 → ship_magic v1 = ship_magic v2 → v1 = v2) := by
  refine ⟨?_, ?_, ?_⟩
  · intro m hm hship
    have hlt : get_ship_version m < 2 ^ 32 := Nat.mod_lt _ (by norm_num)
    refine ⟨?_, hlt⟩
    rw [ship_magic_eq_add _ hlt]
    rw [is_ship_iff, ship_n_eq] at hship
    rw [ship_n_eq]
    unfold get_ship_version
    omega
  · intro v hv
    refine ⟨?_, is_ship_ship_magic v hv, get_ship_version_ship_magic v hv⟩
    rw [ship_magic_eq_add v hv, ship_n_eq]
    omega
  · intro v1 v2 h1 h2 heq
    rw [ship_magic_eq_add v1 h1, ship_magic_eq_add v2 h2] at heq
    omega

theorem ship_magic_get_ship_version_witness :
    (0xc35d500000000001 : Nat) < 2 ^ 64 ∧ is_ship 0xc35d500000000001 = true ∧
    ship_magic (get_ship_version 0xc35d500000000001) = 0xc35d500000000001 :=
  ⟨by decide, by decide,
    (ship_magic_get_ship_version.1 0xc35d500000000001 (by decide) (by decide)).1⟩

/-- C18: `is_ship_supported_version` sees only the low 32 bits of the magic, whatever
stands in the high 32 bits; the magic 0 is not a ship magic and yet passes the
version test. -/
theorem is_ship_supported_version_ignores_tag :
    (∀ m, is_ship_supported_version m = is_ship_supported_version (m % 2 ^ 32)) ∧
    (∀ m hi, is_ship_supported_version (hi * 2 ^ 32 + m % 2 ^ 32) =
      is_ship_supported_version m) ∧
    is_ship 0 = false ∧ is_ship_supported_version 0 = true ∧
    (∃ m, m < 2 ^ 64 ∧ is_ship m = false ∧ is_ship_supported_version m = true) := by
  refine ⟨?_, ?_, by decide, by decide, ⟨0, by decide, by decide, by decide⟩⟩
  · intro m
    unfold is_ship_supported_version get_ship_version
    rw [Nat.mod_mod]
  · intro m hi
    unfold is_ship_supported_version get_ship_version
    have : (hi * 2 ^ 32 + m % 2 ^ 32) % 2 ^ 32 = m % 2 ^ 32 := by omega
    rw [this]

/-- C19: when `_begin_block <= _end_block` and a non-empty catalog has
`0 < first_block_num <= last_block_num < _begin_block`, the range returned by
`begin_end_block_nums` has begin <= end, begin <= `_begin_block` and end =
`_end_block`; with a non-empty catalog begin < end. -/
theorem begin_end_block_nums_well_formed (s : state_history_log)
    (hbe : s._begin_block ≤ s._end_block)
    (hcat : s.catalog.collection ≠ [] →
      0 < s.catalog.first_block_num ∧
      s.catalog.first_block_num ≤ s.catalog.last_block_num ∧
      s.catalog.last_block_num < s._begin_block) :
    s.begin_end_block_nums.1.1 ≤ s.begin_end_block_nums.1.2 ∧
    s.begin_end_block_nums.1.1 ≤ s._begin_block ∧
    s.begin_end_block_nums.1.2 = s._end_block ∧
    (s.catalog.collection ≠ [] → s.begin_end_block_nums.1.1 < s.begin_end_block_nums.1.2) := by
  by_cases hc : s.catalog.collection = []
  · have hfirst : s.catalog.first_block_num = 0 := by
      unfold log_catalog.first_block_num
      rw [hc]
    simp [state_history_log.begin_end_block_nums, hfirst, hc, hbe]
  · obtain ⟨h0, h1, h2⟩ := hcat hc
    have hne : s.catalog.first_block_num ≠ 0 := by omega
    simp only [state_history_log.begin_end_block_nums, bne_iff_ne, ne_eq, hne,
      not_false_eq_true, if_true]
    refine ⟨by omega, by omega, trivial, fun _ => by omega⟩

theorem begin_end_block_nums_well_formed_witness :
    (state_history_log.begin_end_block_nums
      { stride := 4, _begin_block := 10, _end_block := 13,
        catalog := { collection := [(2, 5), (6, 9)] } }).1.1 <
    (state_history_log.begin_end_block_nums
      { stride := 4, _begin_block := 10, _end_block := 13,
        catalog := { collection := [(2, 5), (6, 9)] } }).1.2 :=
  (begin_end_block_nums_well_formed
    { stride := 4, _begin_block := 10, _end_block := 13,
      catalog := { collection := [(2, 5), (6, 9)] } }
    (by decide) (fun _ => by decide)).2.2.2 (by decide)

/-- C20: over every sequence of `block_start` and `add_transaction` calls a block
number that has a bucket keeps having one; `block_start b` on a block number
without a bucket creates an empty one and keeps the buckets of the other block
numbers; and `block_start b` twice leaves the same state as once. -/
theorem trace_cache_buckets_only_grow (s : state_history_traces_log) :
    (∀ ops k, k ∈ map_keys s.trace_caches →
      k ∈ map_keys (run_trace_cache_ops s ops).trace_caches) ∧
    (∀ b, b ∉ map_keys s.trace_caches →
      map_find (s.block_start b).trace_caches b = some { traces := [] }) ∧
    (∀ b k, k ∈ map_keys s.trace_caches → k ∈ map_keys (s.block_start b).trace_caches) ∧
    (∀ trace transaction k, k ∈ map_keys s.trace_caches →
      k ∈ map_keys (s.add_transaction trace transaction).trace_caches) ∧
    (∀ b, (s.block_start b).block_start b = s.block_start b) := by
  refine ⟨fun ops k h => map_keys_run ops s k h, ?_, ?_, ?_, ?_⟩
  · intro b _
    exact map_find_insert_same _ _ _
  · intro b k h
    exact map_keys_apply s (.block_start b) k h
  · intro trace transaction k h
    exact map_keys_apply s (.add_transaction trace transaction) k h
  · intro b
    unfold state_history_traces_log.block_start map_subscript_apply
    simp only [map_find_insert_same, map_insert_insert, Option.getD_some,
      transaction_trace_cache.clear]

theorem trace_cache_buckets_only_grow_witness :
    4 ∈ map_keys sample_traces_log.trace_caches ∧
    4 ∈ map_keys (run_trace_cache_ops sample_traces_log
      [.block_start 4, .add_transaction ⟨7, 9⟩ none, .block_start 5]).trace_caches ∧
    (sample_traces_log.block_start 5).block_start 5 = sample_traces_log.block_start 5 :=
  ⟨by decide,
   (trace_cache_buckets_only_grow sample_traces_log).1
      [.block_start 4, .add_transaction ⟨7, 9⟩ none, .block_start 5] 4 (by decide),
   (trace_cache_buckets_only_grow sample_traces_log).2.2.2.2 5⟩

end eosio
